import Mathlib

/-!
Verification of the DART plugin lifecycle / localization / permission
subsystem (src/modules/localization.py and src/modules/plugin_loader.py),
as a shallow embedding in Lean.

Python dictionaries are modelled as insertion-ordered association lists
(`dfind?` returns the first binding, `dinsert` updates in place or appends,
mirroring CPython dict semantics for unique keys).  Machine I/O is made
explicit: the permission backing file is a value of type `PFile`, the
interactive operator is an oracle `Nat → Bool` consumed one answer per
prompt, and translated functions report their file writes and prompt counts
as data.  All embedded functions are total, which models the Python code
paths that never raise.
-/

namespace DART

/-- First binding for a key in an insertion-ordered association list
(CPython dict lookup). -/
def dfind? {α : Type} : List (String × α) → String → Option α
  | [], _ => none
  | (k, v) :: t, q => if k = q then some v else dfind? t q

/-- `d[k] = v` on a CPython dict: replace the binding in place if the key
is present, otherwise append it. -/
def dinsert {α : Type} : List (String × α) → String → α → List (String × α)
  | [], q, v => [(q, v)]
  | (k, w) :: t, q, v => if k = q then (q, v) :: t else (k, w) :: dinsert t q v

/-- `k in d` on a CPython dict. -/
def dmem {α : Type} (d : List (String × α)) (q : String) : Bool :=
  (dfind? d q).isSome

-- ===========================================================================
-- LocalizationManager (src/modules/localization.py)
-- ===========================================================================

/-- Flat translation table of one language: key → translated string. -/
abbrev Table := List (String × String)

/-- Per-language tables: language code → table. -/
abbrev LangTable := List (String × Table)

/-- Persisted permission store: plugin name → (permission → granted).
Mirrors `permission_cache : Dict[str, Dict[str, bool]]`. -/
abbrev PermCache := List (String × List (String × Bool))

/-- In-memory state of `LocalizationManager` (the fields the verified
operations read or write; the directory paths are I/O plumbing). -/
structure LocState where
  current_language : String
  translations : LangTable
  plugin_translations : List (String × LangTable)
  plugin_permissions : List (String × List String)
  permission_cache : PermCache
deriving Repr, DecidableEq

/-- `LocalizationManager.SUPPORTED_LANGUAGES`. -/
def SUPPORTED_LANGUAGES : List String := ["ko", "en"]

/-- `LocalizationManager.DEFAULT_LANGUAGE`. -/
def DEFAULT_LANGUAGE : String := "ko"

/-- `LocalizationManager.FALLBACK_LANGUAGE`. -/
def FALLBACK_LANGUAGE : String := "en"

/-- Python `default or key` (localization.py line 213/248): `None` and the
empty string are both falsy, so either yields the raw key. -/
def pyOrKey : Option String → String → String
  | none, k => k
  | some d, k => if d = "" then k else d

/-- `LocalizationManager._check_permission` (lines 250-269): reading one's
own translations (`read_locales`) is always allowed; any other permission
must be in the in-memory `plugin_permissions` list. -/
def check_permission (st : LocState) (p perm : String) : Bool :=
  if perm = "read_locales" then true
  else
    match dfind? st.plugin_permissions p with
    | some perms => perms.contains perm
    | none => false

/-- `lang in tables and key in tables[lang]`, returning the value. -/
def lookupLang (lt : LangTable) (lang key : String) : Option String :=
  match dfind? lt lang with
  | some tbl => dfind? tbl key
  | none => none

/-- The main-catalog fallback chain of `get_text` (lines 234-245): current
language, then the hard-coded "ko", then the hard-coded "en". -/
def mainResolve (st : LocState) (key : String) : Option String :=
  match lookupLang st.translations st.current_language key with
  | some v => some v
  | none =>
    match lookupLang st.translations "ko" key with
    | some v => some v
    | none => lookupLang st.translations "en" key

/-- The plugin-catalog fallback chain of `get_text` (lines 218-229) over a
plugin's own tables: current language, then "ko", then "en". -/
def pluginChain (pt : LangTable) (cur key : String) : Option String :=
  match lookupLang pt cur key with
  | some v => some v
  | none =>
    match lookupLang pt "ko" key with
    | some v => some v
    | none => lookupLang pt "en" key

/-- The value an extension-scoped `get_text` finds in the extension's own
tables (lines 215-229), `none` when the plugin has no tables or all three
lookups miss. -/
def pluginScopeResolve (st : LocState) (p key : String) : Option String :=
  match dfind? st.plugin_translations p with
  | some pt => pluginChain pt st.current_language key
  | none => none

/-- `LocalizationManager.get_text` (lines 188-248).  `if plugin_name:` is
Python truthiness, so an empty plugin name selects the main branch.  The
permission-denied branch returns `default or key` (line 213); every other
failure path falls through to line 248, also `default or key`. -/
def get_text (st : LocState) (key : String) (plugin_name : Option String)
    (default : Option String) : String :=
  match plugin_name with
  | some p =>
    if p = "" then
      match mainResolve st key with
      | some v => v
      | none => pyOrKey default key
    else if check_permission st p "read_locales" = false then
      pyOrKey default key
    else
      match dfind? st.plugin_translations p with
      | some pt =>
        match pluginChain pt st.current_language key with
        | some v => v
        | none => pyOrKey default key
      | none => pyOrKey default key
  | none =>
    match mainResolve st key with
    | some v => v
    | none => pyOrKey default key

/-- `LocalizationManager.grant_plugin_permission` (lines 271-293): ensure
the plugin has an entry, then append each permission not already present. -/
def grant_plugin_permission (st : LocState) (p : String) (perms : List String) :
    LocState :=
  let cur := match dfind? st.plugin_permissions p with
    | some l => l
    | none => []
  let upd := perms.foldl (fun acc perm =>
    if acc.contains perm then acc else acc ++ [perm]) cur
  { st with plugin_permissions := dinsert st.plugin_permissions p upd }

/-- `LocalizationManager.deny_plugin_permission` (lines 295-310): remove the
first occurrence of the permission when present (Python `list.remove`). -/
def deny_plugin_permission (st : LocState) (p perm : String) : LocState :=
  match dfind? st.plugin_permissions p with
  | some l =>
    if l.contains perm then
      { st with plugin_permissions := dinsert st.plugin_permissions p (l.erase perm) }
    else st
  | none => st

-- ===========================================================================
-- Permission persistence (lines 72-99) and the request protocol (312-409)
-- ===========================================================================

/-- State of the backing file `~/.tdcs/permissions.json`:
`none` = missing, `some (.error e)` = present but fails to parse with
message `e`, `some (.ok c)` = parses to the store `c`. -/
abbrev PFile := Option (Except String PermCache)

/-- `LocalizationManager._load_permissions_from_file` (lines 72-87).
`permission_cache` was initialised to `{}` just before the call (line 63);
a missing file leaves it empty, a parse failure is caught and logged and
also leaves it empty.  Returns the resulting cache and whether an error was
logged; totality embeds "never raises". -/
def load_permissions_from_file : PFile → PermCache × Bool
  | none => ([], false)
  | some (Except.error _) => ([], true)
  | some (Except.ok c) => (c, false)

/-- `LocalizationManager._save_permissions_to_file` (lines 89-99): one
`json.dump` of the entire store; serialisation of a nested
string-to-boolean mapping is modelled as faithful. -/
def save_permissions_to_file (c : PermCache) : PFile :=
  some (Except.ok c)

/-- `plugin_name in permission_cache and permission in
permission_cache[plugin_name]` (lines 334-335), returning the stored value. -/
def cached2 (cache : PermCache) (p perm : String) : Option Bool :=
  match dfind? cache p with
  | some pc => dfind? pc perm
  | none => none

/-- One iteration of the loop body of `request_plugin_permission`
(lines 332-357) for a permission not yet decided: consume one operator
answer, record it in the result and the cache, then grant or deny the
in-memory permission. -/
def requestFresh (oracle : Nat → Bool) (p perm : String) (st : LocState)
    (res : List (String × Bool)) (n : Nat) : List (String × Bool) × LocState × Nat :=
  let granted := oracle n
  let pc := match dfind? st.permission_cache p with
    | some pc => pc
    | none => []
  let st1 : LocState :=
    { st with permission_cache := dinsert st.permission_cache p (dinsert pc perm granted) }
  let st2 := if granted then grant_plugin_permission st1 p [perm]
    else deny_plugin_permission st1 p perm
  (dinsert res perm granted, st2, n + 1)

/-- The `for permission in permissions` loop of `request_plugin_permission`
(lines 332-357), threading the result dict, the manager state, the prompt
counter and the `need_save` flag. -/
def requestLoop (oracle : Nat → Bool) (p : String) :
    List String → LocState → List (String × Bool) → Nat → Bool →
    List (String × Bool) × LocState × Nat × Bool
  | [], st, res, n, dirty => (res, st, n, dirty)
  | perm :: rest, st, res, n, dirty =>
    match cached2 st.permission_cache p perm with
    | some b => requestLoop oracle p rest st (dinsert res perm b) n dirty
    | none =>
      let step := requestFresh oracle p perm st res n
      requestLoop oracle p rest step.2.1 step.1 step.2.2 true

/-- Observable outcome of one `request_plugin_permission` call: the returned
dict, the updated manager state, how many operator prompts were issued, and
the sequence of backing-file writes performed. -/
structure ReqResult where
  result : List (String × Bool)
  state : LocState
  prompts : Nat
  writes : List PFile

/-- `LocalizationManager.request_plugin_permission` (lines 312-363): run the
loop, then write the whole store to the backing file once if `need_save`
was set, otherwise not at all. -/
def request_plugin_permission (st : LocState) (oracle : Nat → Bool)
    (p : String) (perms : List String) : ReqResult :=
  let out := requestLoop oracle p perms st [] 0 false
  { result := out.1
    state := out.2.1
    prompts := out.2.2.1
    writes := if out.2.2.2 then [save_permissions_to_file out.2.1.permission_cache] else [] }

-- ===========================================================================
-- PluginLoader (src/modules/plugin_loader.py)
-- ===========================================================================

/-- What an entry point does when invoked: return a value, or raise an
exception with a type name and a message (`str(e)`).  Invocation of the
Python callable is abstracted to this outcome; the shared context is not
needed by any verified property. -/
inductive Behavior where
  | ok (v : String)
  | throwsEx (ty msg : String)
deriving Repr, DecidableEq

/-- `PluginMetadata` (plugin_loader.py lines 21-39), the fields the loader
reads.  `enabled` is the only mutable field. -/
structure PluginMeta where
  name : String
  stage : String
  priority : Int
  enabled : Bool
deriving Repr, DecidableEq

/-- One discovered entry point: the metadata object together with the
callable.  Stored in a heap (`LoaderState.metas`) so that the aliasing of
the one metadata object between `plugins` and `plugin_funcs` is explicit:
both refer to it by heap index. -/
structure PluginEntry where
  meta : PluginMeta
  behavior : Behavior
deriving Repr, DecidableEq

/-- State of `PluginLoader`: the heap of discovered entries (index order =
discovery order), `plugins` (name → heap index, last writer wins) and
`plugin_funcs` (stage → heap indices, kept sorted by priority). -/
structure LoaderState where
  metas : List PluginEntry
  plugins : List (String × Nat)
  funcs : List (String × List Nat)
deriving Repr, DecidableEq

def emptyLoader : LoaderState := ⟨[], [], []⟩

/-- Priority of the heap entry at index `i` (the sort key of line 179). -/
def priAt (metas : List PluginEntry) (i : Nat) : Int :=
  match metas[i]? with
  | some e => e.meta.priority
  | none => 0

/-- Insert index `i` into a descending-priority list, before any index of
equal priority (used only with `i` freshly appended, where stability of
Python's sort puts the later-discovered entry after its equals; `sortD`
feeds indices back in input order, so the combination is the stable
descending sort that `list.sort(key=priority, reverse=True)` performs). -/
def insertD (metas : List PluginEntry) (i : Nat) : List Nat → List Nat
  | [] => [i]
  | j :: t => if priAt metas i < priAt metas j then j :: insertD metas i t
    else i :: j :: t

/-- Stable insertion sort by priority descending: extensionally the sort of
plugin_loader.py lines 178-180 (`sort(key=lambda x: x[0].priority,
reverse=True)`, which CPython guarantees to be stable). -/
def sortD (metas : List PluginEntry) : List Nat → List Nat
  | [] => []
  | j :: t => insertD metas j (sortD metas t)

/-- Declaration carried by the `@plugin` decorator for one entry point, in
discovery order. -/
structure PluginDecl where
  name : String
  stage : String
  priority : Int
  enabled : Bool
  behavior : Behavior
deriving Repr, DecidableEq

/-- Registration of one discovered entry point
(plugin_loader.py lines 160-193): store in `plugins` keyed by name (silent
overwrite), append to the stage's list, then re-sort that list by priority
descending. -/
def registerPlugin (st : LoaderState) (d : PluginDecl) : LoaderState :=
  let i := st.metas.length
  let e : PluginEntry := ⟨⟨d.name, d.stage, d.priority, d.enabled⟩, d.behavior⟩
  let metas := st.metas ++ [e]
  let old := match dfind? st.funcs d.stage with
    | some l => l
    | none => []
  { metas := metas
    plugins := dinsert st.plugins d.name i
    funcs := dinsert st.funcs d.stage (sortD metas (old ++ [i])) }

/-- `PluginLoader.load_all_plugins` (lines 129-203), with directory
scanning and dynamic import abstracted to the list of successfully loaded
declarations in discovery order (a module that fails to import contributes
none and the loop continues). -/
def load_all_plugins (decls : List PluginDecl) : LoaderState :=
  decls.foldl registerPlugin emptyLoader

/-- The ordered id list `plugin_funcs[stage]`; empty for an unknown stage
(run_plugins line 231 returns `{}`). -/
def stageIds (st : LoaderState) (stage : String) : List Nat :=
  match dfind? st.funcs stage with
  | some l => l
  | none => []

/-- Outcome recorded in the results dict of `run_plugins`: success carries
the return value (line 249-252), error carries `str(e)` only (lines
270-273) — the exception type name and the traceback go to the log, not
into the outcome. -/
inductive Outcome where
  | success (v : String)
  | error (msg : String)
deriving Repr, DecidableEq

/-- Observable control events of a stage run: an entry point was invoked
(line 248) or skipped as disabled (lines 236-242). -/
inductive RunEvent where
  | invoked (name : String)
  | skippedEv (name : String)
deriving Repr, DecidableEq

/-- Results dict plus the trace of invocations/skips of one stage run. -/
structure RunOutput where
  results : List (String × Outcome)
  events : List RunEvent
deriving Repr, DecidableEq

/-- Body of the `for metadata, func in self.plugin_funcs[stage]` loop
(lines 235-273): skip disabled entries without recording a result; invoke
enabled ones, recording `success`/`error` keyed by the entry's name.  The
`none` heap case is unreachable for states built by `load_all_plugins`. -/
def runEntry (metas : List PluginEntry) (acc : RunOutput) (i : Nat) : RunOutput :=
  match metas[i]? with
  | none => acc
  | some e =>
    if e.meta.enabled = false then
      { acc with events := acc.events ++ [RunEvent.skippedEv e.meta.name] }
    else
      match e.behavior with
      | Behavior.ok v =>
        { results := dinsert acc.results e.meta.name (Outcome.success v)
          events := acc.events ++ [RunEvent.invoked e.meta.name] }
      | Behavior.throwsEx _ msg =>
        { results := dinsert acc.results e.meta.name (Outcome.error msg)
          events := acc.events ++ [RunEvent.invoked e.meta.name] }

/-- `PluginLoader.run_plugins` (lines 205-275).  Total: every exception an
entry point raises is caught inside the loop, so the runner itself never
propagates one. -/
def run_plugins (st : LoaderState) (stage : String) : RunOutput :=
  (stageIds st stage).foldl (runEntry st.metas) ⟨[], []⟩

/-- `PluginLoader.enable_plugin` (lines 315-320): mutate the `enabled`
field of the metadata object registered under `name` — the same object the
stage lists alias, hence the in-place `List.set` on the heap. -/
def enable_plugin (st : LoaderState) (name : String) : LoaderState × Bool :=
  match dfind? st.plugins name with
  | some i =>
    match st.metas[i]? with
    | some e =>
      ({ st with
          metas := st.metas.set i ⟨⟨e.meta.name, e.meta.stage, e.meta.priority, true⟩, e.behavior⟩ },
        true)
    | none => (st, true)
  | none => (st, false)

-- ===========================================================================
-- Claim-side definitions and concrete example states
-- ===========================================================================

/-- Modelled from the spec for comparison (claim C2): the claimed main-scope
resolution order — current-language table, then the table of the fixed
fallback language `FALLBACK_LANGUAGE` (= "en"), then the caller-supplied
default, then the literal key. -/
def specOrderResolveMain (st : LocState) (key : String) (default : Option String) :
    String :=
  match lookupLang st.translations st.current_language key with
  | some v => v
  | none =>
    match lookupLang st.translations FALLBACK_LANGUAGE key with
    | some v => v
    | none => pyOrKey default key

/-- `i` must come before `j` in a stage list: strictly higher priority, or
equal priority and discovered earlier (heap indices are discovery order). -/
def stableBefore (metas : List PluginEntry) (i j : Nat) : Prop :=
  priAt metas j < priAt metas i ∨ (priAt metas i = priAt metas j ∧ i < j)

/-- Outcome `run_plugins` records for an invoked entry: the return value on
success, `str(e)` on an exception. -/
def outcomeOf : Behavior → Outcome
  | Behavior.ok v => Outcome.success v
  | Behavior.throwsEx _ msg => Outcome.error msg

/-- The part of claim C3's recorded-outcome description that concerns the
cause text: an error outcome must carry a non-empty cause description. -/
def errorOutcomeNonEmpty : Outcome → Prop
  | Outcome.error msg => msg ≠ ""
  | Outcome.success _ => True

/-- Catalog state for claim C2's counterexample: current language "en",
key "k" translated only in "ko". -/
def locCounterSt : LocState :=
  ⟨"en", [("ko", [("k", "vko")]), ("en", [])], [], [], []⟩

/-- Plugin-scope witness state for claim C1: one extension with its own
table, empty global catalog irrelevant to it. -/
def locPluginSt : LocState :=
  ⟨"ko", [("ko", [("app.title", "host")])], [("plug", [("ko", [("g", "hi")])])], [], []⟩

/-- Discovery order priority-5 first (claim C4). -/
def declsOrderA : List PluginDecl :=
  [⟨"p5", "splash", 5, true, Behavior.ok "a"⟩, ⟨"p1", "splash", 1, true, Behavior.ok "b"⟩]

/-- Discovery order priority-1 first (claim C4). -/
def declsOrderB : List PluginDecl :=
  [⟨"p1", "splash", 1, true, Behavior.ok "b"⟩, ⟨"p5", "splash", 5, true, Behavior.ok "a"⟩]

/-- Loader state for claim C3: entry "A" raises `ValueError("")`, entry "B"
succeeds. -/
def loaderErrSt : LoaderState :=
  load_all_plugins
    [⟨"A", "splash", 0, true, Behavior.throwsEx "ValueError" ""⟩,
     ⟨"B", "splash", 0, true, Behavior.ok "done"⟩]

/-- Loader state for claim C6: entry "D" disabled, entry "E" enabled. -/
def loaderSkipSt : LoaderState :=
  load_all_plugins
    [⟨"D", "splash", 0, false, Behavior.ok "x"⟩,
     ⟨"E", "splash", 0, true, Behavior.ok "y"⟩]

/-- Manager state for claims C5/C7/C8: a fresh session whose permission
cache was loaded from the backing file with `("plug", read_main_locales) ↦
granted`, and whose in-memory `plugin_permissions` is still empty. -/
def permCachedSt : LocState :=
  ⟨"ko", [], [], [], [("plug", [("read_main_locales", true)])]⟩

-- ===========================================================================
-- Dictionary lemmas
-- ===========================================================================

theorem dfind?_dinsert {α : Type} (d : List (String × α)) (k q : String) (v : α) :
    dfind? (dinsert d k v) q = if k = q then some v else dfind? d q := by
  induction d with
  | nil => simp [dinsert, dfind?]
  | cons hd t ih =>
    obtain ⟨k0, w⟩ := hd
    by_cases hk : k0 = k
    · subst hk
      by_cases hq : k0 = q
      · subst hq
        simp [dinsert, dfind?]
      · simp [dinsert, dfind?, hq]
    · simp only [dinsert, if_neg hk]
      by_cases hq : k0 = q
      · subst hq
        have hkq : ¬ k = k0 := fun h => hk h.symm
        simp [dfind?, hkq]
      · simp [dfind?, hq, ih]

theorem dfind?_dinsert_self {α : Type} (d : List (String × α)) (k : String) (v : α) :
    dfind? (dinsert d k v) k = some v := by
  simp [dfind?_dinsert]

theorem dfind?_dinsert_ne {α : Type} (d : List (String × α)) (k q : String) (v : α)
    (h : k ≠ q) : dfind? (dinsert d k v) q = dfind? d q := by
  simp [dfind?_dinsert, h]

-- ===========================================================================
-- Localization lemmas (claims C1, C2)
-- ===========================================================================

theorem check_permission_read_locales (st : LocState) (p : String) :
    check_permission st p "read_locales" = true := by
  simp [check_permission]

theorem get_text_plugin_eq (st : LocState) (p key : String) (d : Option String)
    (hp : p ≠ "") :
    get_text st key (some p) d =
      match pluginScopeResolve st p key with
      | some v => v
      | none => pyOrKey d key := by
  simp only [get_text, if_neg hp, check_permission_read_locales, pluginScopeResolve]
  cases dfind? st.plugin_translations p with
  | none => rfl
  | some pt => rfl

/-- C1: For every extension-scoped `get_text` lookup, the extension's own
namespace is readable without any capability check (the result is invariant
under any change of the permission state); a lookup from extension scope
never reads the host's global catalog (the result is invariant under any
change of the global translation table, so in particular a lookup that
would need the global namespace succeeds only — indeed never — and thus
only when the `read_main_locales` capability is held); and when the
extension's own tables do not resolve the key, the call returns the
supplied default or the raw key (`default or key`), and never raises (the
embedded function is total). -/
theorem extension_scope_lookup_isolated (st : LocState) (p key : String)
    (d : Option String) (hp : p ≠ "") :
    (∀ perms, get_text { st with plugin_permissions := perms } key (some p) d =
        get_text st key (some p) d) ∧
    (∀ t, get_text { st with translations := t } key (some p) d =
        get_text st key (some p) d) ∧
    (pluginScopeResolve st p key = none →
      get_text st key (some p) d = pyOrKey d key) := by
  refine ⟨fun perms => ?_, fun t => ?_, fun hres => ?_⟩
  · rw [get_text_plugin_eq _ _ _ _ hp, get_text_plugin_eq _ _ _ _ hp]
    rfl
  · rw [get_text_plugin_eq _ _ _ _ hp, get_text_plugin_eq _ _ _ _ hp]
    rfl
  · rw [get_text_plugin_eq _ _ _ _ hp, hres]


/-- Witness for C1 at a concrete state: the extension reads its own key
with no granted permissions at all, ignores the host catalog, and falls
back to the raw key when its tables miss. -/
theorem extension_scope_lookup_isolated_witness :
    get_text locPluginSt "app.title" (some "plug") none = "app.title" :=
  (extension_scope_lookup_isolated locPluginSt "plug" "app.title" none
    (by decide)).2.2 (by decide)

/-- C2 counterexample: with current language "en" and the key present only
in the "ko" table, `get_text` returns the "ko" value, while the spec's
claimed order (current language, then the fixed fallback language "en",
then default, then key) would return the literal key: the code consults
the hard-coded "ko" table before the declared `FALLBACK_LANGUAGE`. -/
theorem get_text_order_counterexample :
    get_text locCounterSt "k" none none ≠ specOrderResolveMain locCounterSt "k" none ∧
    get_text locCounterSt "k" none none = "vko" ∧
    specOrderResolveMain locCounterSt "k" none = "k" := by
  refine ⟨?_, ?_, ?_⟩ <;> decide

/-- C2 amended: `get_text` resolves, for the target namespace, in exactly
this order — the current-language table, then the hard-coded "ko" table,
then the hard-coded "en" table, then the caller-supplied default, then the
literal key (`default or key`, so an empty default also yields the key).
Both the host scope and the extension scope follow this chain; an extension
with no tables at all goes straight to `default or key`. -/
theorem get_text_resolution_order (st : LocState) (key : String) (d : Option String) :
    (∀ v, lookupLang st.translations st.current_language key = some v →
      get_text st key none d = v) ∧
    (lookupLang st.translations st.current_language key = none →
      ∀ v, lookupLang st.translations "ko" key = some v → get_text st key none d = v) ∧
    (lookupLang st.translations st.current_language key = none →
      lookupLang st.translations "ko" key = none →
      ∀ v, lookupLang st.translations "en" key = some v → get_text st key none d = v) ∧
    (lookupLang st.translations st.current_language key = none →
      lookupLang st.translations "ko" key = none →
      lookupLang st.translations "en" key = none →
      get_text st key none d = pyOrKey d key) ∧
    (∀ p pt, p ≠ "" → dfind? st.plugin_translations p = some pt →
      ((∀ v, lookupLang pt st.current_language key = some v →
          get_text st key (some p) d = v) ∧
       (lookupLang pt st.current_language key = none →
         ∀ v, lookupLang pt "ko" key = some v → get_text st key (some p) d = v) ∧
       (lookupLang pt st.current_language key = none →
         lookupLang pt "ko" key = none →
         ∀ v, lookupLang pt "en" key = some v → get_text st key (some p) d = v) ∧
       (lookupLang pt st.current_language key = none →
         lookupLang pt "ko" key = none → lookupLang pt "en" key = none →
         get_text st key (some p) d = pyOrKey d key))) ∧
    (∀ p, p ≠ "" → dfind? st.plugin_translations p = none →
      get_text st key (some p) d = pyOrKey d key) := by
  refine ⟨fun v h1 => ?_, fun h1 v h2 => ?_, fun h1 h2 v h3 => ?_, fun h1 h2 h3 => ?_,
    fun p pt hp hpt => ⟨fun v h1 => ?_, fun h1 v h2 => ?_, fun h1 h2 v h3 => ?_,
      fun h1 h2 h3 => ?_⟩, fun p hp hpt => ?_⟩
  · simp [get_text, mainResolve, h1]
  · simp [get_text, mainResolve, h1, h2]
  · simp [get_text, mainResolve, h1, h2, h3]
  · simp [get_text, mainResolve, h1, h2, h3]
  · rw [get_text_plugin_eq _ _ _ _ hp]
    simp [pluginScopeResolve, hpt, pluginChain, h1]
  · rw [get_text_plugin_eq _ _ _ _ hp]
    simp [pluginScopeResolve, hpt, pluginChain, h1, h2]
  · rw [get_text_plugin_eq _ _ _ _ hp]
    simp [pluginScopeResolve, hpt, pluginChain, h1, h2, h3]
  · rw [get_text_plugin_eq _ _ _ _ hp]
    simp [pluginScopeResolve, hpt, pluginChain, h1, h2, h3]
  · rw [get_text_plugin_eq _ _ _ _ hp]
    simp [pluginScopeResolve, hpt]

/-- Witness for the amended C2 at the counterexample state: the key misses
the current ("en") table and is served from the "ko" table. -/
theorem get_text_resolution_order_witness :
    get_text locCounterSt "k" none none = "vko" :=
  (get_text_resolution_order locCounterSt "k" none).2.1 (by decide) "vko" (by decide)

-- ===========================================================================
-- Stable priority sorting (claim C4)
-- ===========================================================================

theorem mem_insertD (m : List PluginEntry) (i x : Nat) (l : List Nat) :
    x ∈ insertD m i l ↔ x = i ∨ x ∈ l := by
  induction l with
  | nil => simp [insertD]
  | cons j t ih =>
    by_cases h : priAt m i < priAt m j
    · simp only [insertD, if_pos h, List.mem_cons, ih]
      try tauto
    · simp only [insertD, if_neg h, List.mem_cons]
      try tauto

theorem mem_sortD (m : List PluginEntry) (x : Nat) (l : List Nat) :
    x ∈ sortD m l ↔ x ∈ l := by
  induction l with
  | nil => simp [sortD]
  | cons j t ih => simp [sortD, mem_insertD, ih]

theorem insertD_pairwise (m : List PluginEntry) (i : Nat) (l : List Nat)
    (hl : List.Pairwise (stableBefore m) l)
    (hi : ∀ j ∈ l, priAt m i = priAt m j → i < j) :
    List.Pairwise (stableBefore m) (insertD m i l) := by
  induction l with
  | nil => simp [insertD, List.pairwise_cons]
  | cons j t ih =>
    rw [List.pairwise_cons] at hl
    obtain ⟨hjt, ht⟩ := hl
    by_cases h : priAt m i < priAt m j
    · rw [insertD, if_pos h, List.pairwise_cons]
      constructor
      · intro z hz
        rcases (mem_insertD m i z t).1 hz with hzi | hzt
        · subst hzi
          exact Or.inl h
        · exact hjt z hzt
      · exact ih ht (fun j2 hj2 => hi j2 (List.mem_cons_of_mem _ hj2))
    · rw [insertD, if_neg h, List.pairwise_cons]
      constructor
      · intro z hz
        rcases List.mem_cons.1 hz with hzj | hzt
        · subst hzj
          rcases lt_or_eq_of_le (not_lt.1 h) with hlt | heq
          · exact Or.inl hlt
          · exact Or.inr ⟨heq.symm, hi z (List.mem_cons_self _ _) heq.symm⟩
        · rcases hjt z hzt with hz1 | ⟨hz1, hz2⟩
          · have : priAt m j ≤ priAt m i := not_lt.1 h
            exact Or.inl (lt_of_lt_of_le hz1 this)
          · have hle : priAt m z ≤ priAt m i := by
              rw [← hz1]
              exact not_lt.1 h
            rcases lt_or_eq_of_le hle with hlt | heq
            · exact Or.inl hlt
            · exact Or.inr ⟨heq.symm, hi z (List.mem_cons_of_mem _ hzt) heq.symm⟩
      · rw [List.pairwise_cons]
        exact ⟨hjt, ht⟩

theorem sortD_pairwise (m : List PluginEntry) (l : List Nat)
    (hl : List.Pairwise (fun i j => priAt m i = priAt m j → i < j) l) :
    List.Pairwise (stableBefore m) (sortD m l) := by
  induction l with
  | nil => simp [sortD]
  | cons j t ih =>
    rw [List.pairwise_cons] at hl
    obtain ⟨hjt, ht⟩ := hl
    rw [sortD]
    refine insertD_pairwise m j (sortD m t) (ih ht) ?_
    intro j2 hj2 hpri
    exact hjt j2 ((mem_sortD m j2 t).1 hj2) hpri

theorem priAt_append (m : List PluginEntry) (e : PluginEntry) (i : Nat)
    (h : i < m.length) : priAt (m ++ [e]) i = priAt m i := by
  unfold priAt
  rw [List.getElem?_append, if_pos h]

theorem priAt_append_self (m : List PluginEntry) (e : PluginEntry) :
    priAt (m ++ [e]) m.length = e.meta.priority := by
  unfold priAt
  rw [List.getElem?_concat_length]

/-- Invariant of `LoaderState` maintained by registration: every stage list
is sorted by priority descending with ties in discovery order, and only
refers to existing heap entries. -/
def LoaderInv (st : LoaderState) : Prop :=
  (∀ stage, List.Pairwise (stableBefore st.metas) (stageIds st stage)) ∧
  (∀ stage, ∀ i ∈ stageIds st stage, i < st.metas.length)

theorem loaderInv_empty : LoaderInv emptyLoader := by
  constructor <;> intro stage <;> simp [stageIds, emptyLoader, dfind?]

theorem stableBefore_append (m : List PluginEntry) (e : PluginEntry) (i j : Nat)
    (hi : i < m.length) (hj : j < m.length) :
    stableBefore (m ++ [e]) i j ↔ stableBefore m i j := by
  unfold stableBefore
  rw [priAt_append m e i hi, priAt_append m e j hj]

theorem loaderInv_register (st : LoaderState) (d : PluginDecl)
    (h : LoaderInv st) : LoaderInv (registerPlugin st d) := by
  obtain ⟨hsort, hbound⟩ := h
  have hmetas : (registerPlugin st d).metas =
      st.metas ++ [⟨⟨d.name, d.stage, d.priority, d.enabled⟩, d.behavior⟩] := rfl
  have hstage : ∀ stage, stageIds (registerPlugin st d) stage =
      if d.stage = stage then
        sortD (st.metas ++ [⟨⟨d.name, d.stage, d.priority, d.enabled⟩, d.behavior⟩])
          (stageIds st d.stage ++ [st.metas.length])
      else stageIds st stage := by
    intro stage
    unfold stageIds registerPlugin
    rw [dfind?_dinsert]
    by_cases hs : d.stage = stage
    · simp only [if_pos hs]
      try rfl
    · simp only [if_neg hs]
  constructor
  · intro stage
    rw [hstage stage, hmetas]
    by_cases hs : d.stage = stage
    · rw [if_pos hs]
      apply sortD_pairwise
      rw [List.pairwise_append]
      refine ⟨?_, by simp, ?_⟩
      · have := hsort d.stage
        have hb := hbound d.stage
        refine this.imp_of_mem ?_
        intro a b ha hb2 hab
        intro hpri
        rcases hab with h1 | ⟨h1, h2⟩
        · exfalso
          rw [priAt_append _ _ _ (hb a ha), priAt_append _ _ _ (hb b hb2)] at hpri
          omega
        · exact h2
      · intro a ha b hb2
        simp only [List.mem_singleton] at hb2
        subst hb2
        intro hpri
        exact hbound d.stage a ha
    · rw [if_neg hs]
      have := hsort stage
      have hb := hbound stage
      refine this.imp_of_mem ?_
      intro a b ha hb2 hab
      exact (stableBefore_append st.metas _ a b (hb a ha) (hb b hb2)).2 hab
  · intro stage i hi
    rw [hstage stage] at hi
    rw [hmetas, List.length_append, List.length_singleton]
    by_cases hs : d.stage = stage
    · rw [if_pos hs] at hi
      rw [mem_sortD] at hi
      rcases List.mem_append.1 hi with h1 | h1
      · have := hbound d.stage i h1
        omega
      · simp only [List.mem_singleton] at h1
        omega
    · rw [if_neg hs] at hi
      have := hbound stage i hi
      omega

theorem loaderInv_foldl (decls : List PluginDecl) (st : LoaderState)
    (h : LoaderInv st) : LoaderInv (decls.foldl registerPlugin st) := by
  induction decls generalizing st with
  | nil => exact h
  | cons d t ih => exact ih _ (loaderInv_register st d h)

/-- C4: after any discovery sequence, every stage's registered entry points
are kept sorted by priority descending with ties in discovery order (heap
index order = discovery order, Python's sort is stable); and running a
stage holding entries of priorities 5 and 1 yields the priority-5 outcome
before the priority-1 outcome in the results mapping, for either discovery
order. -/
theorem stage_lists_priority_sorted :
    (∀ (decls : List PluginDecl) (stage : String),
      List.Pairwise (stableBefore (load_all_plugins decls).metas)
        (stageIds (load_all_plugins decls) stage)) ∧
    (run_plugins (load_all_plugins declsOrderA) "splash").results =
      [("p5", Outcome.success "a"), ("p1", Outcome.success "b")] ∧
    (run_plugins (load_all_plugins declsOrderB) "splash").results =
      [("p5", Outcome.success "a"), ("p1", Outcome.success "b")] := by
  refine ⟨fun decls stage => ?_, by decide, by decide⟩
  exact (loaderInv_foldl decls emptyLoader loaderInv_empty).1 stage

-- ===========================================================================
-- Stage-run lemmas (claims C3, C6)
-- ===========================================================================

theorem runEntry_events_mem (m : List PluginEntry) (acc : RunOutput) (i : Nat)
    (ev : RunEvent) (h : ev ∈ acc.events) : ev ∈ (runEntry m acc i).events := by
  unfold runEntry
  cases m[i]? with
  | none => exact h
  | some e =>
    by_cases he : e.meta.enabled = false
    · simp only [if_pos he]
      exact List.mem_append_left _ h
    · simp only [if_neg he]
      cases e.behavior <;> exact List.mem_append_left _ h

theorem foldl_events_mem (m : List PluginEntry) (ids : List Nat) (acc : RunOutput)
    (ev : RunEvent) (h : ev ∈ acc.events) :
    ev ∈ (ids.foldl (runEntry m) acc).events := by
  induction ids generalizing acc with
  | nil => exact h
  | cons j t ih => exact ih _ (runEntry_events_mem m acc j ev h)

theorem runEntry_enabled_eq (m : List PluginEntry) (acc : RunOutput) (i : Nat)
    (e : PluginEntry) (hm : m[i]? = some e) (he : e.meta.enabled = true) :
    runEntry m acc i =
      { results := dinsert acc.results e.meta.name (outcomeOf e.behavior)
        events := acc.events ++ [RunEvent.invoked e.meta.name] } := by
  unfold runEntry
  rw [hm]
  simp only [he]
  cases e.behavior <;> rfl

theorem runEntry_disabled_eq (m : List PluginEntry) (acc : RunOutput) (i : Nat)
    (e : PluginEntry) (hm : m[i]? = some e) (he : e.meta.enabled = false) :
    runEntry m acc i =
      { acc with events := acc.events ++ [RunEvent.skippedEv e.meta.name] } := by
  unfold runEntry
  rw [hm]
  simp only [he]
  rfl

theorem foldl_invoked_mem (m : List PluginEntry) (ids : List Nat) (acc : RunOutput)
    (i : Nat) (e : PluginEntry) (hi : i ∈ ids) (hm : m[i]? = some e)
    (he : e.meta.enabled = true) :
    RunEvent.invoked e.meta.name ∈ (ids.foldl (runEntry m) acc).events := by
  induction ids generalizing acc with
  | nil => cases hi
  | cons j t ih =>
    rw [List.foldl_cons]
    rcases List.mem_cons.1 hi with hj | ht
    · subst hj
      apply foldl_events_mem
      rw [runEntry_enabled_eq m acc i e hm he]
      exact List.mem_append_right _ (List.mem_singleton_self _)
    · exact ih _ ht

theorem foldl_skipped_mem (m : List PluginEntry) (ids : List Nat) (acc : RunOutput)
    (i : Nat) (e : PluginEntry) (hi : i ∈ ids) (hm : m[i]? = some e)
    (he : e.meta.enabled = false) :
    RunEvent.skippedEv e.meta.name ∈ (ids.foldl (runEntry m) acc).events := by
  induction ids generalizing acc with
  | nil => cases hi
  | cons j t ih =>
    rw [List.foldl_cons]
    rcases List.mem_cons.1 hi with hj | ht
    · subst hj
      apply foldl_events_mem
      rw [runEntry_disabled_eq m acc i e hm he]
      exact List.mem_append_right _ (List.mem_singleton_self _)
    · exact ih _ ht

theorem foldl_invoked_not_mem (m : List PluginEntry) (ids : List Nat)
    (acc : RunOutput) (n : String) (hacc : RunEvent.invoked n ∉ acc.events)
    (hids : ∀ j ∈ ids, ∀ e2, m[j]? = some e2 → e2.meta.name = n →
      e2.meta.enabled = false) :
    RunEvent.invoked n ∉ (ids.foldl (runEntry m) acc).events := by
  induction ids generalizing acc with
  | nil => exact hacc
  | cons j t ih =>
    refine ih _ ?_ (fun j2 hj2 => hids j2 (List.mem_cons_of_mem _ hj2))
    unfold runEntry
    cases hm : m[j]? with
    | none => exact hacc
    | some e =>
      by_cases he : e.meta.enabled = false
      · simp only [if_pos he, List.mem_append]
        rintro (h1 | h1)
        · exact hacc h1
        · simp only [List.mem_singleton] at h1
          cases h1
      · simp only [if_neg he]
        have hne : e.meta.name ≠ n := by
          intro hn
          exact he (hids j (List.mem_cons_self _ _) e hm hn)
        cases e.behavior <;>
          · simp only [List.mem_append]
            rintro (h1 | h1)
            · exact hacc h1
            · simp only [List.mem_singleton, RunEvent.invoked.injEq] at h1
              exact hne h1.symm

theorem foldl_results_none (m : List PluginEntry) (ids : List Nat)
    (acc : RunOutput) (n : String) (hacc : dfind? acc.results n = none)
    (hids : ∀ j ∈ ids, ∀ e2, m[j]? = some e2 → e2.meta.name = n →
      e2.meta.enabled = false) :
    dfind? (ids.foldl (runEntry m) acc).results n = none := by
  induction ids generalizing acc with
  | nil => exact hacc
  | cons j t ih =>
    refine ih _ ?_ (fun j2 hj2 => hids j2 (List.mem_cons_of_mem _ hj2))
    unfold runEntry
    cases hm : m[j]? with
    | none => exact hacc
    | some e =>
      by_cases he : e.meta.enabled = false
      · simp only [if_pos he]
        exact hacc
      · simp only [if_neg he]
        have hne : e.meta.name ≠ n := by
          intro hn
          exact he (hids j (List.mem_cons_self _ _) e hm hn)
        cases e.behavior <;>
          · simp only []
            rw [dfind?_dinsert_ne _ _ _ _ hne]
            exact hacc

theorem foldl_results_preserved (m : List PluginEntry) (ids : List Nat)
    (acc : RunOutput) (n : String) (o : Outcome)
    (hacc : dfind? acc.results n = some o)
    (hids : ∀ j ∈ ids, ∀ e2, m[j]? = some e2 → e2.meta.enabled = true →
      e2.meta.name = n → outcomeOf e2.behavior = o) :
    dfind? (ids.foldl (runEntry m) acc).results n = some o := by
  induction ids generalizing acc with
  | nil => exact hacc
  | cons j t ih =>
    refine ih _ ?_ (fun j2 hj2 => hids j2 (List.mem_cons_of_mem _ hj2))
    cases hm : m[j]? with
    | none =>
      unfold runEntry
      rw [hm]
      exact hacc
    | some e =>
      by_cases he : e.meta.enabled = false
      · rw [runEntry_disabled_eq m acc j e hm he]
        exact hacc
      · have he2 : e.meta.enabled = true := by
          cases h2 : e.meta.enabled
          · exact absurd h2 he
          · rfl
        rw [runEntry_enabled_eq m acc j e hm he2]
        by_cases hn : e.meta.name = n
        · rw [hn, dfind?_dinsert_self]
          rw [hids j (List.mem_cons_self _ _) e hm he2 hn]
        · rw [dfind?_dinsert_ne _ _ _ _ hn]
          exact hacc

theorem foldl_results_of_unique (m : List PluginEntry) (ids : List Nat)
    (acc : RunOutput) (i : Nat) (e : PluginEntry) (hi : i ∈ ids)
    (hm : m[i]? = some e) (he : e.meta.enabled = true)
    (huniq : ∀ j ∈ ids, j ≠ i → ∀ e2, m[j]? = some e2 →
      e2.meta.name ≠ e.meta.name) :
    dfind? (ids.foldl (runEntry m) acc).results e.meta.name =
      some (outcomeOf e.behavior) := by
  induction ids generalizing acc with
  | nil => cases hi
  | cons j t ih =>
    rw [List.foldl_cons]
    rcases List.mem_cons.1 hi with hj | ht
    · subst hj
      refine foldl_results_preserved m t _ _ _ ?_ ?_
      · rw [runEntry_enabled_eq m acc i e hm he]
        exact dfind?_dinsert_self _ _ _
      · intro j2 hj2 e2 hm2 he2 hn2
        by_cases hji : j2 = i
        · subst hji
          rw [hm] at hm2
          cases hm2
          rfl
        · exact absurd hn2 (huniq j2 (List.mem_cons_of_mem _ hj2) hji e2 hm2)
    · exact ih _ ht (fun j2 hj2 => huniq j2 (List.mem_cons_of_mem _ hj2))

/-- C3 counterexample: entry "A" raises `ValueError("")`; the recorded
outcome for "A" is `error ""` — its cause description is `str(e)` alone,
which here is empty and in particular contains neither the exception type
name nor any stack trace text (those are only printed to the log); this
refutes the claim that the recorded outcome carries the type name, message
and full stack trace as a non-empty cause description. -/
theorem run_error_outcome_counterexample :
    dfind? (run_plugins loaderErrSt "splash").results "A" = some (Outcome.error "") ∧
    ¬ errorOutcomeNonEmpty (Outcome.error "") := by
  constructor
  · decide
  · intro h
    exact h rfl

/-- C3 amended: when an entry point raises during a stage run, the runner
catches the error and records for that entry an outcome with status
"error" carrying the error's message (`str(e)`) — which may be empty; the
type name and stack trace are printed to the log, not stored in the
outcome — does not propagate the error (the embedded runner is total), and
still executes every other enabled entry point of the stage (each enabled
entry's invocation event appears in the run trace regardless of what the
other entries do). -/
theorem run_plugins_error_isolated (st : LoaderState) (stage : String)
    (i : Nat) (e : PluginEntry) (hi : i ∈ stageIds st stage)
    (hm : st.metas[i]? = some e) (he : e.meta.enabled = true) :
    RunEvent.invoked e.meta.name ∈ (run_plugins st stage).events ∧
    (∀ ty msg, e.behavior = Behavior.throwsEx ty msg →
      (∀ j ∈ stageIds st stage, j ≠ i → ∀ e2, st.metas[j]? = some e2 →
        e2.meta.name ≠ e.meta.name) →
      dfind? (run_plugins st stage).results e.meta.name = some (Outcome.error msg)) := by
  constructor
  · exact foldl_invoked_mem st.metas _ _ i e hi hm he
  · intro ty msg hb huniq
    have := foldl_results_of_unique st.metas (stageIds st stage) ⟨[], []⟩ i e hi hm he huniq
    rw [hb] at this
    exact this

/-- Witness for the amended C3 at the concrete two-entry stage: the raiser
"A" gets outcome `error ""` and its sibling "B" is still invoked. -/
theorem run_plugins_error_isolated_witness :
    dfind? (run_plugins loaderErrSt "splash").results "A" = some (Outcome.error "") ∧
    RunEvent.invoked "B" ∈ (run_plugins loaderErrSt "splash").events := by
  constructor
  · exact (run_plugins_error_isolated loaderErrSt "splash" 0
      ⟨⟨"A", "splash", 0, true⟩, Behavior.throwsEx "ValueError" ""⟩
      (by decide) (by decide) rfl).2 "ValueError" "" rfl (by decide)
  · exact (run_plugins_error_isolated loaderErrSt "splash" 1
      ⟨⟨"B", "splash", 0, true⟩, Behavior.ok "done"⟩
      (by decide) (by decide) rfl).1

/-- C6 counterexample: the disabled entry "D" is skipped, yet the run's
results mapping records no outcome at all for it (no "skipped" outcome);
only a skip message is logged. -/
theorem run_disabled_no_outcome_counterexample :
    dfind? (run_plugins loaderSkipSt "splash").results "D" = none ∧
    RunEvent.skippedEv "D" ∈ (run_plugins loaderSkipSt "splash").events := by
  constructor <;> decide

/-- C6 amended: a lifecycle run never invokes an entry point whose enabled
flag is false — it logs a skip event and records no outcome for it in the
results mapping (rather than a "skipped" outcome); and after
`enable_plugin(name)` a subsequent run of the stage does invoke that entry
point. -/
theorem run_plugins_disabled_skipped (st : LoaderState) (stage : String)
    (i : Nat) (e : PluginEntry) (hi : i ∈ stageIds st stage)
    (hm : st.metas[i]? = some e) (he : e.meta.enabled = false) :
    RunEvent.skippedEv e.meta.name ∈ (run_plugins st stage).events ∧
    ((∀ j ∈ stageIds st stage, ∀ e2, st.metas[j]? = some e2 →
        e2.meta.name = e.meta.name → e2.meta.enabled = false) →
      RunEvent.invoked e.meta.name ∉ (run_plugins st stage).events ∧
      dfind? (run_plugins st stage).results e.meta.name = none) ∧
    (∀ name i2 e2, dfind? st.plugins name = some i2 → st.metas[i2]? = some e2 →
      i2 ∈ stageIds st stage →
      RunEvent.invoked e2.meta.name ∈
        (run_plugins (enable_plugin st name).1 stage).events) := by
  refine ⟨?_, fun hall => ⟨?_, ?_⟩, fun name i2 e2 hp hm2 hi2 => ?_⟩
  · exact foldl_skipped_mem st.metas _ _ i e hi hm he
  · exact foldl_invoked_not_mem st.metas _ _ _ (by simp) hall
  · exact foldl_results_none st.metas _ _ _ (by simp [dfind?]) hall
  · have hlen : i2 < st.metas.length := by
      have := List.getElem?_eq_some.1 hm2
      exact this.1
    have hset : (enable_plugin st name).1.metas =
        st.metas.set i2 ⟨⟨e2.meta.name, e2.meta.stage, e2.meta.priority, true⟩, e2.behavior⟩ := by
      simp [enable_plugin, hp, hm2]
    have hstages : stageIds (enable_plugin st name).1 stage = stageIds st stage := by
      unfold stageIds
      have hfuncs : (enable_plugin st name).1.funcs = st.funcs := by
        simp [enable_plugin, hp, hm2]
      rw [hfuncs]
    have hget : (enable_plugin st name).1.metas[i2]? =
        some ⟨⟨e2.meta.name, e2.meta.stage, e2.meta.priority, true⟩, e2.behavior⟩ := by
      rw [hset]
      exact List.getElem?_set_eq_of_lt _ hlen
    have := foldl_invoked_mem (enable_plugin st name).1.metas
      (stageIds (enable_plugin st name).1 stage) ⟨[], []⟩ i2
      ⟨⟨e2.meta.name, e2.meta.stage, e2.meta.priority, true⟩, e2.behavior⟩
      (by rw [hstages]; exact hi2) hget rfl
    exact this

/-- Witness for the amended C6 at the concrete state: "D" is skipped with
no recorded outcome, and after `enable_plugin "D"` a new run invokes it. -/
theorem run_plugins_disabled_skipped_witness :
    RunEvent.skippedEv "D" ∈ (run_plugins loaderSkipSt "splash").events ∧
    dfind? (run_plugins loaderSkipSt "splash").results "D" = none ∧
    RunEvent.invoked "D" ∈
      (run_plugins (enable_plugin loaderSkipSt "D").1 "splash").events := by
  have h := run_plugins_disabled_skipped loaderSkipSt "splash" 0
    ⟨⟨"D", "splash", 0, false⟩, Behavior.ok "x"⟩ (by decide) (by decide) rfl
  refine ⟨h.1, (h.2.1 (by decide)).2, ?_⟩
  exact h.2.2 "D" 0 ⟨⟨"D", "splash", 0, false⟩, Behavior.ok "x"⟩
    (by decide) (by decide) (by decide)

-- ===========================================================================
-- Permission request protocol (claims C5, C7, C8)
-- ===========================================================================

theorem grant_permission_cache (st : LocState) (p : String) (l : List String) :
    (grant_plugin_permission st p l).permission_cache = st.permission_cache := rfl

theorem deny_permission_cache (st : LocState) (p perm : String) :
    (deny_plugin_permission st p perm).permission_cache = st.permission_cache := by
  unfold deny_plugin_permission
  cases dfind? st.plugin_permissions p with
  | none => rfl
  | some l =>
    dsimp only
    by_cases hc : l.contains perm = true
    · rw [if_pos hc]
    · rw [if_neg hc]

theorem requestFresh_cache (oracle : Nat → Bool) (p perm : String) (st : LocState)
    (res : List (String × Bool)) (n : Nat) :
    ((requestFresh oracle p perm st res n).2.1).permission_cache =
      dinsert st.permission_cache p
        (dinsert (match dfind? st.permission_cache p with
          | some pc => pc
          | none => []) perm (oracle n)) := by
  unfold requestFresh
  by_cases hg : oracle n <;>
    simp [hg, grant_permission_cache, deny_permission_cache]

theorem requestFresh_prompts (oracle : Nat → Bool) (p perm : String) (st : LocState)
    (res : List (String × Bool)) (n : Nat) :
    (requestFresh oracle p perm st res n).2.2 = n + 1 := rfl

theorem cached2_requestFresh_self (oracle : Nat → Bool) (p perm : String)
    (st : LocState) (res : List (String × Bool)) (n : Nat) :
    cached2 ((requestFresh oracle p perm st res n).2.1).permission_cache p perm =
      some (oracle n) := by
  unfold cached2
  rw [requestFresh_cache, dfind?_dinsert_self]
  exact dfind?_dinsert_self _ _ _

theorem cached2_requestFresh_preserved (oracle : Nat → Bool) (p perm : String)
    (st : LocState) (res : List (String × Bool)) (n : Nat) (p2 c2 : String) (b : Bool)
    (h : cached2 st.permission_cache p perm = none)
    (hb : cached2 st.permission_cache p2 c2 = some b) :
    cached2 ((requestFresh oracle p perm st res n).2.1).permission_cache p2 c2 =
      some b := by
  unfold cached2 at *
  rw [requestFresh_cache]
  by_cases hp : p = p2
  · subst hp
    rw [dfind?_dinsert_self]
    cases hpc : dfind? st.permission_cache p with
    | none =>
      rw [hpc] at hb
      cases hb
    | some pc =>
      rw [hpc] at hb h
      simp only [hpc]
      by_cases hcc : perm = c2
      · subst hcc
        rw [h] at hb
        cases hb
      · exact (dfind?_dinsert_ne _ _ _ _ hcc).trans hb
  · rw [dfind?_dinsert_ne _ _ _ _ hp]
    exact hb

theorem requestLoop_cache_mono (oracle : Nat → Bool) (p : String)
    (perms : List String) : ∀ (st : LocState) (res : List (String × Bool))
    (n : Nat) (dirty : Bool) (p2 c2 : String) (b : Bool),
    cached2 st.permission_cache p2 c2 = some b →
    cached2 ((requestLoop oracle p perms st res n dirty).2.1).permission_cache p2 c2 =
      some b := by
  induction perms with
  | nil =>
    intro st res n dirty p2 c2 b hb
    exact hb
  | cons c0 rest ih =>
    intro st res n dirty p2 c2 b hb
    unfold requestLoop
    cases hc : cached2 st.permission_cache p c0 with
    | some b0 => exact ih _ _ _ _ _ _ _ hb
    | none =>
      exact ih _ _ _ _ _ _ _
        (cached2_requestFresh_preserved oracle p c0 st res n p2 c2 b hc hb)

theorem requestLoop_single_cached (oracle : Nat → Bool) (p c : String)
    (st : LocState) (res : List (String × Bool)) (n : Nat) (dirty : Bool) (b : Bool)
    (h : cached2 st.permission_cache p c = some b) :
    requestLoop oracle p [c] st res n dirty = (dinsert res c b, st, n, dirty) := by
  unfold requestLoop
  rw [h]
  rfl

theorem requestLoop_single_fresh (oracle : Nat → Bool) (p c : String)
    (st : LocState) (res : List (String × Bool)) (n : Nat) (dirty : Bool)
    (h : cached2 st.permission_cache p c = none) :
    requestLoop oracle p [c] st res n dirty =
      ((requestFresh oracle p c st res n).1,
        (requestFresh oracle p c st res n).2.1, n + 1, true) := by
  unfold requestLoop
  rw [h]
  rfl

/-- C5: a recorded decision for an (extension, capability) pair is terminal
until administratively reset — a later request for the pair returns the
stored value without prompting and without changing the manager state, any
request call preserves every existing decision, and two requests for the
same pair across separate calls prompt the operator at most once in
total. -/
theorem permission_decision_terminal (st : LocState) (oracle oracle2 : Nat → Bool)
    (p c : String) :
    (∀ b, cached2 st.permission_cache p c = some b →
      (request_plugin_permission st oracle p [c]).result = [(c, b)] ∧
      (request_plugin_permission st oracle p [c]).prompts = 0 ∧
      (request_plugin_permission st oracle p [c]).state = st) ∧
    (∀ (perms : List String) (p2 c2 : String) (b : Bool),
      cached2 st.permission_cache p2 c2 = some b →
      cached2 (request_plugin_permission st oracle p perms).state.permission_cache
        p2 c2 = some b) ∧
    ((request_plugin_permission st oracle p [c]).prompts +
      (request_plugin_permission (request_plugin_permission st oracle p [c]).state
        oracle2 p [c]).prompts ≤ 1) := by
  refine ⟨fun b hb => ?_, fun perms p2 c2 b hb => ?_, ?_⟩
  · unfold request_plugin_permission
    rw [requestLoop_single_cached oracle p c st [] 0 false b hb]
    exact ⟨rfl, rfl, rfl⟩
  · unfold request_plugin_permission
    exact requestLoop_cache_mono oracle p perms st [] 0 false p2 c2 b hb
  · cases hc : cached2 st.permission_cache p c with
    | some b =>
      unfold request_plugin_permission
      rw [requestLoop_single_cached oracle p c st [] 0 false b hc]
      rw [requestLoop_single_cached oracle2 p c st [] 0 false b hc]
      show 0 + 0 ≤ 1
      decide
    | none =>
      unfold request_plugin_permission
      rw [requestLoop_single_fresh oracle p c st [] 0 false hc]
      rw [requestLoop_single_cached oracle2 p c _ [] 0 false (oracle 0)
        (cached2_requestFresh_self oracle p c st [] 0)]
      show 0 + 1 + 0 ≤ 1
      decide

/-- Witness for C5 at the loaded-from-file state: the decided pair answers
from the cache with zero prompts and an unchanged state. -/
theorem permission_decision_terminal_witness :
    (request_plugin_permission permCachedSt (fun _ => false) "plug"
      ["read_main_locales"]).result = [("read_main_locales", true)] ∧
    (request_plugin_permission permCachedSt (fun _ => false) "plug"
      ["read_main_locales"]).prompts = 0 := by
  have h := (permission_decision_terminal permCachedSt (fun _ => false)
    (fun _ => false) "plug" "read_main_locales").1 true (by decide)
  exact ⟨h.1, h.2.1⟩

theorem requestLoop_all_cached (oracle : Nat → Bool) (p : String)
    (perms : List String) : ∀ (st : LocState) (res : List (String × Bool))
    (n : Nat) (dirty : Bool),
    (∀ c ∈ perms, (cached2 st.permission_cache p c).isSome) →
    (requestLoop oracle p perms st res n dirty).2.1 = st ∧
    (requestLoop oracle p perms st res n dirty).2.2.1 = n ∧
    (requestLoop oracle p perms st res n dirty).2.2.2 = dirty ∧
    (∀ c b, cached2 st.permission_cache p c = some b →
      (dfind? res c = some b ∨ c ∈ perms) →
      dfind? (requestLoop oracle p perms st res n dirty).1 c = some b) := by
  induction perms with
  | nil =>
    intro st res n dirty hall
    refine ⟨rfl, rfl, rfl, fun c b hb hor => ?_⟩
    rcases hor with h | h
    · exact h
    · cases h
  | cons c0 rest ih =>
    intro st res n dirty hall
    have h0 := hall c0 (List.mem_cons_self _ _)
    cases hb0 : cached2 st.permission_cache p c0 with
    | none =>
      rw [hb0] at h0
      cases h0
    | some b0 =>
      unfold requestLoop
      rw [hb0]
      have ih2 := ih st (dinsert res c0 b0) n dirty
        (fun c hc => hall c (List.mem_cons_of_mem _ hc))
      refine ⟨ih2.1, ih2.2.1, ih2.2.2.1, fun c b hb hor => ?_⟩
      refine ih2.2.2.2 c b hb ?_
      by_cases hcc : c0 = c
      · subst hcc
        rw [hb0] at hb
        cases hb
        exact Or.inl (dfind?_dinsert_self _ _ _)
      · rcases hor with h | h
        · exact Or.inl (by rw [dfind?_dinsert_ne _ _ _ _ hcc]; exact h)
        · rcases List.mem_cons.1 h with h1 | h1
          · exact absurd h1.symm hcc
          · exact Or.inr h1

/-- C7: a request call in which every requested capability is already
decided in the persisted cache returns the cached booleans but leaves the
in-memory granted-permission list (`plugin_permissions`) unchanged; hence
in a fresh session whose cache was loaded from the backing file and whose
`plugin_permissions` is empty, `_check_permission` still answers false for
every capability other than `read_locales` even after such a call. -/
theorem request_cached_skips_grant (st : LocState) (oracle : Nat → Bool)
    (p : String) (perms : List String)
    (hall : ∀ c ∈ perms, (cached2 st.permission_cache p c).isSome) :
    (request_plugin_permission st oracle p perms).state.plugin_permissions =
      st.plugin_permissions ∧
    (∀ c b, c ∈ perms → cached2 st.permission_cache p c = some b →
      dfind? (request_plugin_permission st oracle p perms).result c = some b) ∧
    (st.plugin_permissions = [] → ∀ q perm, perm ≠ "read_locales" →
      check_permission (request_plugin_permission st oracle p perms).state q perm =
        false) := by
  have h := requestLoop_all_cached oracle p perms st [] 0 false hall
  refine ⟨?_, fun c b hc hb => ?_, fun h0 q perm hperm => ?_⟩
  · show (requestLoop oracle p perms st [] 0 false).2.1.plugin_permissions = _
    rw [h.1]
  · exact h.2.2.2 c b hb (Or.inr hc)
  · show check_permission (requestLoop oracle p perms st [] 0 false).2.1 q perm = false
    rw [h.1]
    unfold check_permission
    rw [if_neg hperm, h0]
    rfl

/-- Witness for C7: at the loaded-from-file state the call answers `true`
from the cache, yet `write_locales` (and any non-`read_locales` capability)
is still unheld afterwards. -/
theorem request_cached_skips_grant_witness :
    (request_plugin_permission permCachedSt (fun _ => false) "plug"
      ["read_main_locales"]).state.plugin_permissions = [] ∧
    dfind? (request_plugin_permission permCachedSt (fun _ => false) "plug"
      ["read_main_locales"]).result "read_main_locales" = some true ∧
    check_permission (request_plugin_permission permCachedSt (fun _ => false) "plug"
      ["read_main_locales"]).state "plug" "read_main_locales" = false := by
  have h := request_cached_skips_grant permCachedSt (fun _ => false) "plug"
    ["read_main_locales"] (by decide)
  refine ⟨h.1, ?_, ?_⟩
  · exact h.2.1 "read_main_locales" true (by decide) (by decide)
  · exact h.2.2 rfl "plug" "read_main_locales" (by decide)

theorem requestLoop_dirty_stays (oracle : Nat → Bool) (p : String)
    (perms : List String) : ∀ (st : LocState) (res : List (String × Bool)) (n : Nat),
    (requestLoop oracle p perms st res n true).2.2.2 = true := by
  induction perms with
  | nil =>
    intro st res n
    rfl
  | cons c0 rest ih =>
    intro st res n
    unfold requestLoop
    cases cached2 st.permission_cache p c0 with
    | some b0 => exact ih _ _ _
    | none => exact ih _ _ _

theorem requestLoop_dirty_of_uncached (oracle : Nat → Bool) (p : String)
    (perms : List String) : ∀ (st : LocState) (res : List (String × Bool))
    (n : Nat) (dirty : Bool),
    (∃ c ∈ perms, cached2 st.permission_cache p c = none) →
    (requestLoop oracle p perms st res n dirty).2.2.2 = true := by
  induction perms with
  | nil =>
    intro st res n dirty h
    obtain ⟨c, hc, _⟩ := h
    cases hc
  | cons c0 rest ih =>
    intro st res n dirty h
    obtain ⟨c, hc, hcn⟩ := h
    unfold requestLoop
    cases hb0 : cached2 st.permission_cache p c0 with
    | some b0 =>
      rcases List.mem_cons.1 hc with h1 | h1
      · subst h1
        rw [hb0] at hcn
        cases hcn
      · exact ih st (dinsert res c0 b0) n dirty ⟨c, h1, hcn⟩
    | none => exact requestLoop_dirty_stays oracle p rest _ _ _

/-- C8: a `request_plugin_permission` call that records at least one new
decision performs exactly one write to the backing file, of the entire
updated store; a call in which every requested capability was already
decided performs no write at all. -/
theorem request_writes_once (st : LocState) (oracle : Nat → Bool) (p : String)
    (perms : List String) :
    ((∀ c ∈ perms, (cached2 st.permission_cache p c).isSome) →
      (request_plugin_permission st oracle p perms).writes = []) ∧
    ((∃ c ∈ perms, cached2 st.permission_cache p c = none) →
      (request_plugin_permission st oracle p perms).writes =
        [save_permissions_to_file
          (request_plugin_permission st oracle p perms).state.permission_cache]) := by
  constructor
  · intro hall
    have h := (requestLoop_all_cached oracle p perms st [] 0 false hall).2.2.1
    show (if (requestLoop oracle p perms st [] 0 false).2.2.2 then _ else _) = _
    rw [h]
    rfl
  · intro hex
    have h := requestLoop_dirty_of_uncached oracle p perms st [] 0 false hex
    show (if (requestLoop oracle p perms st [] 0 false).2.2.2 then _ else _) = _
    rw [h]
    rfl

/-- Witness for C8: at the loaded-from-file state, requesting the already
decided capability writes nothing, and requesting a fresh capability
performs the single whole-store write. -/
theorem request_writes_once_witness :
    (request_plugin_permission permCachedSt (fun _ => false) "plug"
      ["read_main_locales"]).writes = [] ∧
    (request_plugin_permission permCachedSt (fun _ => false) "plug"
      ["write_locales"]).writes =
      [save_permissions_to_file
        (request_plugin_permission permCachedSt (fun _ => false) "plug"
          ["write_locales"]).state.permission_cache] := by
  constructor
  · exact (request_writes_once permCachedSt (fun _ => false) "plug"
      ["read_main_locales"]).1 (by decide)
  · exact (request_writes_once permCachedSt (fun _ => false) "plug"
      ["write_locales"]).2 ⟨"write_locales", by decide, by decide⟩

-- ===========================================================================
-- Permission persistence (claims C9, C10)
-- ===========================================================================

/-- C9: a missing backing file loads as an empty store with no error
logged; a present-but-unparseable file loads as an empty store with the
failure logged (the exception is caught — the embedded loader is total, so
the host never crashes); a save always writes a parseable image of the
whole store, so the next successful save overwrites a corrupt file and a
subsequent load recovers exactly the saved store. -/
theorem permission_load_failure_safe :
    load_permissions_from_file none = ([], false) ∧
    (∀ e, load_permissions_from_file (some (Except.error e)) = ([], true)) ∧
    (∀ c, save_permissions_to_file c = some (Except.ok c)) ∧
    (∀ c, load_permissions_from_file (save_permissions_to_file c) = (c, false)) :=
  ⟨rfl, fun _ => rfl, fun _ => rfl, fun _ => rfl⟩

/-- C10: saving the permission store and reloading the backing file yields
the identical decision for every (extension, capability) pair present
before the save (JSON serialisation of the nested string-to-boolean
mapping is modelled as faithful, which it is for CPython dict stores). -/
theorem permission_store_roundtrip (cache : PermCache) (p c : String) (b : Bool)
    (h : cached2 cache p c = some b) :
    cached2 (load_permissions_from_file (save_permissions_to_file cache)).1 p c =
      some b := h

/-- Witness for C10 at a concrete one-entry store. -/
theorem permission_store_roundtrip_witness :
    cached2 (load_permissions_from_file
      (save_permissions_to_file [("plug", [("read_main_locales", true)])])).1
      "plug" "read_main_locales" = some true :=
  permission_store_roundtrip [("plug", [("read_main_locales", true)])]
    "plug" "read_main_locales" true (by decide)

end DART
